import Mathlib

/-!
Verification development for the cnlp_transformers multi-task head
(`src/cnlpt/models/cnlp.py`).  Tensors are shallowly embedded as nested
lists; a runtime tensor whose rank is only known dynamically is embedded
as the sum type `PTensor`.  Machine floating point is idealized as exact
arithmetic (`ℚ` for the value-generic loss plumbing, `ℝ` for the parts
that use `sqrt`/`tanh`).  Library loss functions (`CrossEntropyLoss`,
`MSELoss`) and the encoder are external collaborators and are taken as
parameters; every piece of repository logic (branching, slicing, cursor
threading, weighting, shape dispatch) is translated from the source.
-/

namespace Cnlpt

/-- Rank-1 tensor as a list. -/
abbrev T1 (α : Type) := List α

/-- Rank-2 tensor as nested lists. -/
abbrev T2 (α : Type) := List (List α)

/-- Rank-3 tensor as nested lists. -/
abbrev T3 (α : Type) := List (List (List α))

/-- Rank-4 tensor as nested lists. -/
abbrev T4 (α : Type) := List (List (List (List α)))

/-- A tensor whose rank (1 to 4) is only known at runtime, as in the
Python code's `len(tensor.shape)` dispatch. -/
inductive PTensor (α : Type) where
  | r1 : T1 α → PTensor α
  | r2 : T2 α → PTensor α
  | r3 : T3 α → PTensor α
  | r4 : T4 α → PTensor α
deriving DecidableEq

namespace PTensor

/-- `len(t.shape)` of the Python runtime. -/
def rank {α : Type} : PTensor α → Nat
  | .r1 _ => 1
  | .r2 _ => 2
  | .r3 _ => 3
  | .r4 _ => 4

/-- `t.shape[1]`, as read off a rank-2/3/4 tensor (`0` in the rank-1
case, which the Python code never reaches on this path). -/
def shape1 {α : Type} : PTensor α → Nat
  | .r1 _ => 0
  | .r2 m => (m.headD []).length
  | .r3 t => (t.headD []).length
  | .r4 t => (t.headD []).length

/-- Extract the payload of a rank-4 tensor (`[]` otherwise). -/
def unr4 {α : Type} : PTensor α → T4 α
  | .r4 t => t
  | _ => []

/-- Extract the payload of a rank-3 tensor (`[]` otherwise). -/
def unr3 {α : Type} : PTensor α → T3 α
  | .r3 t => t
  | _ => []

/-- Extract the payload of a rank-1 tensor (`[]` otherwise). -/
def unr1 {α : Type} : PTensor α → T1 α
  | .r1 t => t
  | _ => []

end PTensor

/-- Entry access `t[b][i][j]` into a rank-4 tensor, with `[]` out of range. -/
def ent4 {α : Type} (t : T4 α) (b i j : Nat) : List α :=
  ((t.getD b []).getD i []).getD j []

/-- Entry access `t[b][i]` into a rank-3 tensor, with `[]` out of range. -/
def ent3 {α : Type} (t : T3 α) (b i : Nat) : List α :=
  (t.getD b []).getD i []

/-- Entry access `t[b][d]` into a rank-2 tensor. -/
def ent2 {α : Type} (t : T2 α) (b d : Nat) (dflt : α) : α :=
  (t.getD b []).getD d dflt

/-! ### `generalize_encoder_forward_kwargs` (cnlp.py lines 27-50)

The encoder's accepted parameter names stand for
`inspect.signature(encoder.forward).parameters`; the keyword bag is an
association list in Python dict iteration order; a value of `none`
models Python `None`.  The function is a pure filter that also collects
the warning messages it would log. -/

/-- The warning text logged for a dropped, non-`None` argument. -/
def paramWarning (name cls : String) : String :=
  "Parameter " ++ name ++ " not present for encoder class " ++ cls

/-- One iteration of the loop body in `generalize_encoder_forward_kwargs`. -/
def kwargStep {V : Type} (params : List String) (cls : String)
    (acc : List (String × Option V) × List String) (kv : String × Option V) :
    List (String × Option V) × List String :=
  if kv.1 ∉ params ∧ kv.2.isSome then
    (acc.1, acc.2 ++ [paramWarning kv.1 cls])
  else if kv.1 ∈ params then
    (acc.1 ++ [kv], acc.2)
  else
    acc

/-- `generalize_encoder_forward_kwargs`: returns the retained keyword
bag together with the list of emitted warnings. -/
def generalize_encoder_forward_kwargs {V : Type} (params : List String)
    (cls : String) (kwargs : List (String × Option V)) :
    List (String × Option V) × List String :=
  kwargs.foldl (kwargStep params cls) ([], [])

/-! ### Construction-time validation (cnlp.py lines 110-139 and 346-349) -/

/-- The raise conditions of `RepresentationProjectionLayer.__init__`, in
source order: first the relation head-count check, then the
token/tagger/relation exclusivity check. -/
def rpl_init_check (tokens tagger relations : Bool)
    (num_attention_heads : Int) : Except String Unit :=
  if num_attention_heads ≤ 0 ∧ relations = true then
    .error "Inconsistent configuration: num_attention_heads must be > 0 for relations"
  else if tokens = true ∧ (tagger = true ∨ relations = true) then
    .error "Inconsistent configuration: tokens cannot be true in tagger or relation mode"
  else
    .ok ()

/-- The raise condition of `CnlpModelForClassification.__init__` on the
requested layer versus the encoder depth. -/
def cnlp_model_layer_check (layer num_layers : Int) : Except String Unit :=
  if layer > num_layers then
    .error "The layer specified is too big for the specified encoder"
  else
    .ok ()

/-! ### `predict_relations_with_previous_logits` (cnlp.py lines 411-453) -/

/-- `torch.cat((features, aug), 3)`: concatenate two rank-4 tensors
along the last (feature) axis. -/
def catDim3 {α : Type} (f aug : T4 α) : T4 α :=
  List.zipWith (List.zipWith (List.zipWith (fun fv av => fv ++ av))) f aug

/-- `prior_task_logits.unsqueeze(2).repeat(1, 1, seq_len, 1)`: insert a
new axis after the sequence axis and repeat the logits along it. -/
def broadcastAug {α : Type} (seq_len : Nat) (p : T3 α) : T4 α :=
  p.map (fun pb => pb.map (fun pi_logits => List.replicate seq_len pi_logits))

/-- One iteration of the loop over `logits` in
`predict_relations_with_previous_logits`: dispatch on the runtime ranks
of the feature tensor and of one prior task's logits; returns the
(possibly augmented) features and the warnings emitted. -/
def augmentWithPrior {α : Type} (seq_len : Nat) (features : PTensor α)
    (prior : PTensor α) : PTensor α × List String :=
  match features with
  | .r4 f =>
    match prior with
    | .r3 p => (.r4 (catDim3 f (broadcastAug seq_len p)), [])
    | _ =>
      (features,
        ["It is not implemented to add a task of this shape to a relation matrix"])
  | .r3 _ =>
    (features,
      ["It is not implemented to add previous task of any type to a sequence task"])
  | _ => (features, [])

/-- `predict_relations_with_previous_logits`: `seq_len` is read from
`features.shape[1]` once, before the loop, and the loop folds over the
prior tasks' logits in order, collecting warnings. -/
def predict_relations_with_previous_logits {α : Type} (features : PTensor α)
    (logits : List (PTensor α)) : PTensor α × List String :=
  let seq_len := features.shape1
  logits.foldl
    (fun acc prior =>
      let step := augmentWithPrior seq_len acc.1 prior
      (step.1, acc.2 ++ step.2))
    (features, [])

/-! ### `compute_loss` (cnlp.py lines 455-546)

The torch library loss functions `CrossEntropyLoss` and `MSELoss` are
external collaborators (their values are transcendental); they enter the
embedding as parameters `ce` and `mse`.  Everything else — the
regression/relation/tagger/classification dispatch, the label-tensor
rank sniffing, the slicing, the cursor threading, and the weighted loss
fold — is translated from the source. -/

/-- The per-task flags the model looks up by task name
(`self.relations[task_name]`, `self.tagger[task_name]`) and the task's
label count (`len(task_labels)` in `forward`). -/
structure TaskConfig where
  isRelation : Bool
  isTagger : Bool
  numLabels : Nat
deriving DecidableEq

instance : Inhabited TaskConfig := ⟨⟨false, false, 0⟩⟩

/-- The running `state` dict of `compute_loss`: the accumulated loss
(`None` until the first contribution) and the label cursor
`task_label_ind`. -/
structure LossState where
  loss : Option ℚ
  task_label_ind : Nat
deriving DecidableEq

/-- `tensor.view(-1)`: flatten to rank 1. -/
def flattenAll : PTensor ℚ → List ℚ
  | .r1 l => l
  | .r2 m => m.foldr (fun r acc => r ++ acc) []
  | .r3 t => t.foldr (fun m acc => m.foldr (fun r a => r ++ a) acc) []
  | .r4 t =>
    t.foldr (fun u acc => u.foldr (fun m a => m.foldr (fun r b => r ++ b) a) acc) []

/-- `task_logits.permute(0, 3, 1, 2)` on a rank-4 tensor:
`out[b][h][i][j] = in[b][i][j][h]`. -/
def permute0312 (t : T4 ℚ) : T4 ℚ :=
  t.map (fun tb =>
    let num_heads := ((tb.headD []).headD []).length
    (List.range num_heads).map (fun h =>
      tb.map (fun ti => ti.map (fun tij => tij.getD h 0))))

/-- Relation branch label slice
`labels[:, :, task_label_ind : task_label_ind + seq_len]`; anything but
a rank-3 label tensor would make that subscript fail in torch. -/
def relationTaskLabels (labels : PTensor ℚ) (cursor seq_len : Nat) :
    Except String (T3 ℚ) :=
  match labels with
  | .r3 l => .ok (l.map (fun lb => lb.map (fun ls => (ls.drop cursor).take seq_len)))
  | _ => .error "relation labels: unsupported label tensor rank"

/-- Tagger branch label addressing: rank 2 keeps the whole tensor,
rank 3 takes `labels[:, :, task_label_ind]`, any higher rank takes
`labels[:, 0, task_label_ind, :]`; a rank-1 tensor would make the
subscript fail in torch. -/
def taggerTaskLabels (labels : PTensor ℚ) (cursor : Nat) :
    Except String (T2 ℚ) :=
  match labels with
  | .r2 l => .ok l
  | .r3 l => .ok (l.map (fun lb => lb.map (fun ls => ls.getD cursor 0)))
  | .r4 l => .ok (l.map (fun lb => (lb.getD 0 []).getD cursor []))
  | .r1 _ => .error "tagger labels: unsupported label tensor rank"

/-- Plain-classification branch label addressing: rank 1 keeps the whole
tensor, rank 2 takes the column `labels[:, task_ind]`, rank 3 takes
`labels[:, 0, task_ind]`; any higher rank raises `NotImplementedError`.
Note the subscript is the fixed task index `task_ind`, not the running
cursor. -/
def classificationTaskLabels (labels : PTensor ℚ) (task_ind : Nat) :
    Except String (T1 ℚ) :=
  match labels with
  | .r1 l => .ok l
  | .r2 l => .ok (l.map (fun lb => lb.getD task_ind 0))
  | .r3 l => .ok (l.map (fun lb => (lb.getD 0 []).getD task_ind 0))
  | .r4 _ =>
    .error "Have not implemented the case where a classification task is part of an MTL setup with relations and sequence tagging"

/-- The branch dispatch of `compute_loss`: computes this task's loss
value together with the updated label cursor.  `ce` and `mse` stand for
the torch `CrossEntropyLoss` / `MSELoss` collaborators. -/
def task_loss_and_cursor (ce : PTensor ℚ → PTensor ℚ → ℚ)
    (mse : List ℚ → List ℚ → ℚ) (tc : TaskConfig)
    (task_logits labels : PTensor ℚ) (task_ind task_num_labels : Nat)
    (batch_size seq_len : Nat) (cursor : Nat) : Except String (ℚ × Nat) :=
  if task_num_labels = 1 then
    -- regression: MSELoss(task_logits.view(-1), labels.view(-1)); no cursor move
    .ok (mse (flattenAll task_logits) (flattenAll labels), cursor)
  else if tc.isRelation = true then
    -- task_labels = labels[:, :, cursor : cursor + seq_len]; cursor += seq_len
    (relationTaskLabels labels cursor seq_len).map (fun task_labels =>
      (ce (.r4 (permute0312 task_logits.unr4)) (.r3 task_labels),
        cursor + seq_len))
  else if tc.isTagger = true then
    -- rank-dispatched task_labels; cursor += 1;
    -- loss_fct(task_logits.view(-1, n), task_labels.reshape([batch*seq]))
    (taggerTaskLabels labels cursor).map (fun task_labels =>
      (ce (.r2 (task_logits.unr3.foldr (fun m acc => m ++ acc) []))
          (.r1 (task_labels.foldr (fun r acc => r ++ acc) [])),
        cursor + 1))
  else
    -- plain classification: labels addressed by the fixed task index
    (classificationTaskLabels labels task_ind).map (fun task_labels =>
      (ce task_logits (.r1 task_labels), cursor + 1))
  -- `batch_size` only shapes the reshape views above; values are unchanged

/-- `compute_loss`: computes the task's loss and folds it into the
running state.  The first contribution initializes `state.loss` with no
weight applied; every later contribution is added with weight `1` unless
the task is the last declared one, which uses `final_task_weight`. -/
def compute_loss (ce : PTensor ℚ → PTensor ℚ → ℚ)
    (mse : List ℚ → List ℚ → ℚ) (tasks : List TaskConfig)
    (final_task_weight : ℚ) (task_logits labels : PTensor ℚ)
    (task_ind task_num_labels : Nat) (batch_size seq_len : Nat)
    (state : LossState) : Except String LossState :=
  (task_loss_and_cursor ce mse (tasks.getD task_ind default) task_logits labels
      task_ind task_num_labels batch_size seq_len state.task_label_ind).map
    (fun res =>
      match state.loss with
      | none => ⟨some res.1, res.2⟩
      | some prev =>
        let task_weight : ℚ :=
          if task_ind + 1 < tasks.length then 1 else final_task_weight
        ⟨some (prev + task_weight * res.1), res.2⟩)

/-! ### `forward` (cnlp.py lines 548-649)

The encoder and the per-task feature extractor / classifier modules are
collaborators; the loop structure — declared task order, optional
fan-in for relation tasks, appending one logits tensor per task,
conditional loss computation — is translated from the source. -/

/-- The model fields `forward` consults. -/
structure CnlpModel where
  tasks : List TaskConfig
  final_task_weight : ℚ
  use_prior_tasks : Bool

/-- The feature tensor used for task `task_ind` given the logits of the
previously processed tasks: the extracted features, run through the
fan-in augmentation when `use_prior_tasks` is set and the task is a
relation task. -/
def taskFeatures (m : CnlpModel) (extract : Nat → PTensor ℚ)
    (task_ind : Nat) (prior_logits : List (PTensor ℚ)) : PTensor ℚ :=
  if m.use_prior_tasks = true ∧
      (m.tasks.getD task_ind default).isRelation = true then
    (predict_relations_with_previous_logits (extract task_ind) prior_logits).1
  else extract task_ind

/-- The body of the `for task_ind, task_name in enumerate(self.tasks)`
loop, acting on the accumulated `(logits, state)` pair. -/
def forwardStep (m : CnlpModel) (ce : PTensor ℚ → PTensor ℚ → ℚ)
    (mse : List ℚ → List ℚ → ℚ) (extract : Nat → PTensor ℚ)
    (classify : Nat → PTensor ℚ → PTensor ℚ) (labels : Option (PTensor ℚ))
    (batch_size seq_len : Nat) (acc : List (PTensor ℚ) × LossState)
    (task_ind : Nat) : Except String (List (PTensor ℚ) × LossState) :=
  let task_logits := classify task_ind (taskFeatures m extract task_ind acc.1)
  let logits := acc.1 ++ [task_logits]
  match labels with
  | none => .ok (logits, acc.2)
  | some lbls =>
    (compute_loss ce mse m.tasks m.final_task_weight task_logits lbls task_ind
        (m.tasks.getD task_ind default).numLabels batch_size seq_len acc.2).map
      (fun state => (logits, state))

/-- `forward`: runs the task loop in declared order starting from an
empty logits list and `state = dict(loss=None, task_label_ind=0)`, and
returns the ordered logits list together with the aggregated loss
(`none` when no labels were supplied). -/
def cnlp_forward (m : CnlpModel) (ce : PTensor ℚ → PTensor ℚ → ℚ)
    (mse : List ℚ → List ℚ → ℚ) (extract : Nat → PTensor ℚ)
    (classify : Nat → PTensor ℚ → PTensor ℚ) (labels : Option (PTensor ℚ))
    (batch_size seq_len : Nat) :
    Except String (List (PTensor ℚ) × Option ℚ) :=
  ((List.range m.tasks.length).foldlM
      (forwardStep m ce mse extract classify labels batch_size seq_len)
      ([], ⟨none, 0⟩)).map
    (fun res => (res.1, res.2.loss))

/-! ### `RepresentationProjectionLayer.forward` (cnlp.py lines 154-214)

Real-valued, since the layer uses `sqrt` and `tanh`.  Dropout is modeled
at inference time, where `nn.Dropout` is the identity.  In relation mode
`self.dense` is `nn.Identity()`; in every other mode it is a learned
`nn.Linear`, taken here as explicit weight/bias data. -/

/-- Rank-2 real tensor. -/
abbrev MatR := List (List ℝ)

/-- Rank-3 real tensor. -/
abbrev T3R := List (List (List ℝ))

/-- Dot product of two vectors (`zipWith` mirrors torch's elementwise
product over matching extents). -/
noncomputable def dotR (u v : List ℝ) : ℝ :=
  (List.zipWith (fun a b => a * b) u v).sum

/-- `nn.Linear(W, b)` applied to one vector: `y_o = W_o · x + b_o`. -/
noncomputable def linearMap (W : MatR) (b : List ℝ) (x : List ℝ) : List ℝ :=
  List.zipWith (fun row bo => dotR row x + bo) W b

/-- Elements `[h*head_size, (h+1)*head_size)` of a vector: head `h`'s
slice after the `view` to `(…, num_heads, head_size)`. -/
def headSlice {α : Type} (head_size h : Nat) (v : List α) : List α :=
  (v.drop (h * head_size)).take head_size

/-- `transpose_for_scores` on one example: from `(seq, all_head)` to
`(num_heads, seq, head_size)` (the `view` + `permute(0, 2, 1, 3)` of
cnlp.py lines 141-152, taken per batch element). -/
def transpose_for_scores {α : Type} (num_heads head_size : Nat) (x : List (List α)) :
    List (List (List α)) :=
  (List.range num_heads).map (fun h => x.map (fun xv => headSlice head_size h xv))

/-- `torch.matmul(query_layer, key_layer.transpose(-1, -2))` on one
example: for each head, the `seq × seq` matrix of query/key dot
products. -/
noncomputable def attnScores (q k : T3R) : T3R :=
  List.zipWith (fun qh kh => qh.map (fun qi => kh.map (fun kj => dotR qi kj))) q k

/-- `x.permute(0, 2, 3, 1)` on one example: from `(num_heads, seq, seq)`
to `(seq, seq, num_heads)`. -/
def permuteHeadsLast (x : T3R) : T3R :=
  let si := (x.headD []).length
  let sj := ((x.headD []).headD []).length
  (List.range si).map (fun i =>
    (List.range sj).map (fun j => x.map (fun xh => (xh.getD i []).getD j 0)))

/-- The relation branch of `RepresentationProjectionLayer.forward` on
one example: query/key projections, per-head pairwise dot products,
scaling by `sqrt(head_size)`, heads moved to the trailing axis. -/
noncomputable def relation_extract_batch (num_heads head_size : Nat)
    (Wq : MatR) (bq : List ℝ) (Wk : MatR) (bk : List ℝ) (hb : MatR) : T3R :=
  let key_layer :=
    transpose_for_scores num_heads head_size (hb.map (linearMap Wk bk))
  let query_layer :=
    transpose_for_scores num_heads head_size (hb.map (linearMap Wq bq))
  let attention_scores := attnScores query_layer key_layer
  let scaled := attention_scores.map (fun xh =>
    xh.map (fun xi => xi.map (fun s => s / Real.sqrt head_size)))
  permuteHeadsLast scaled

/-- The relation branch over a batch.  Output shape
`(batch, seq, seq, num_heads)`. -/
noncomputable def relation_extract (num_heads head_size : Nat)
    (Wq : MatR) (bq : List ℝ) (Wk : MatR) (bk : List ℝ)
    (hidden_states : T3R) : T4 ℝ :=
  hidden_states.map (relation_extract_batch num_heads head_size Wq bq Wk bk)

/-- Elementwise sum of a list of vectors, starting from the zero vector:
`filtered_features.sum(1)` for one example. -/
noncomputable def sumVecs (n : Nat) (vs : List (List ℝ)) : List ℝ :=
  vs.foldl (fun acc v => List.zipWith (fun a b => a + b) acc v)
    (List.replicate n 0)

/-- The token-pooling branch: multiply each position's hidden vector by
its mask value, sum over positions, and divide elementwise by the
per-example mask total `event_tokens.sum(1)` — with no guard against a
zero total. -/
noncomputable def tokens_pool (hidden_size : Nat) (layer_features : T3R)
    (event_tokens : MatR) : MatR :=
  List.zipWith
    (fun fb mb =>
      let event_toks_per_seq : ℝ := mb.sum
      let filtered := List.zipWith (fun mv fv => fv.map (fun x => mv * x)) mb fb
      (sumVecs hidden_size filtered).map (fun s => s / event_toks_per_seq))
    layer_features event_tokens

/-- Apply a vector-to-vector map along the trailing axis of a tensor of
any rank (how `nn.Linear` acts on a batched input). -/
noncomputable def mapLastDim (f : List ℝ → List ℝ) : PTensor ℝ → PTensor ℝ
  | .r1 v => .r1 (f v)
  | .r2 m => .r2 (m.map f)
  | .r3 t => .r3 (t.map (fun m => m.map f))
  | .r4 t => .r4 (t.map (fun u => u.map (fun m => m.map f)))

/-- Apply a scalar function to every entry of a tensor of any rank (how
`torch.tanh` acts). -/
noncomputable def mapEntries (g : ℝ → ℝ) : PTensor ℝ → PTensor ℝ
  | .r1 v => .r1 (v.map g)
  | .r2 m => .r2 (m.map (fun r => r.map g))
  | .r3 t => .r3 (t.map (fun m => m.map (fun r => r.map g)))
  | .r4 t => .r4 (t.map (fun u => u.map (fun m => m.map (fun r => r.map g))))

/-- The fields of a constructed `RepresentationProjectionLayer`: mode
flags, chosen layer, sizes, and the learned weights (`dense` is
`nn.Identity()` exactly in relation mode, so its weights are only used
otherwise). -/
structure RPL where
  layer_to_use : Nat
  tokens : Bool
  tagger : Bool
  relations : Bool
  hidden_size : Nat
  num_attention_heads : Nat
  attention_head_size : Nat
  Wq : MatR
  bq : List ℝ
  Wk : MatR
  bk : List ℝ
  denseW : MatR
  denseB : List ℝ

/-- `RepresentationProjectionLayer.forward` at inference time: the
`tokens`/`tagger`/`relations`/CLS dispatch chooses the feature, and then
— in every mode — dropout (identity at inference), `self.dense`
(identity in relation mode, a linear layer otherwise) and `torch.tanh`
are applied. -/
noncomputable def rpl_forward (m : RPL) (features : List T3R)
    (event_tokens : MatR) : PTensor ℝ :=
  let x : PTensor ℝ :=
    if m.tokens = true then
      .r2 (tokens_pool m.hidden_size (features.getD m.layer_to_use []) event_tokens)
    else if m.tagger = true then
      .r3 (features.getD m.layer_to_use [])
    else if m.relations = true then
      .r4 (relation_extract m.num_attention_heads m.attention_head_size
        m.Wq m.bq m.Wk m.bk (features.getD m.layer_to_use []))
    else
      -- take the <s> token: features[layer][..., 0, :]
      .r2 ((features.getD m.layer_to_use []).map (fun hb => hb.headD []))
  -- x = self.dropout(x): identity at inference
  -- x = self.dense(x): nn.Identity() in relation mode
  let x :=
    if m.relations = true then x
    else mapLastDim (linearMap m.denseW m.denseB) x
  -- x = torch.tanh(x)
  mapEntries Real.tanh x

/-! ## Theorems -/

/-- Accumulator-generalized description of the
`generalize_encoder_forward_kwargs` loop. -/
theorem kwargs_foldl_spec {V : Type} (params : List String) (cls : String)
    (kwargs : List (String × Option V)) (acc1 : List (String × Option V))
    (acc2 : List String) :
    kwargs.foldl (kwargStep params cls) (acc1, acc2) =
      (acc1 ++ kwargs.filter (fun kv => decide (kv.1 ∈ params)),
        acc2 ++ (kwargs.filter
            (fun kv => decide (kv.1 ∉ params) && kv.2.isSome)).map
          (fun kv => paramWarning kv.1 cls)) := by
  induction kwargs generalizing acc1 acc2 with
  | nil => simp
  | cons kv rest ih =>
    by_cases h1 : kv.1 ∈ params
    · have hstep : kwargStep params cls (acc1, acc2) kv = (acc1 ++ [kv], acc2) := by
        simp [kwargStep, h1]
      simp [List.foldl_cons, hstep, ih, List.filter_cons, h1]
    · by_cases h2 : kv.2.isSome
      · have hstep : kwargStep params cls (acc1, acc2) kv =
            (acc1, acc2 ++ [paramWarning kv.1 cls]) := by
          simp [kwargStep, h1, h2]
        simp [List.foldl_cons, hstep, ih, List.filter_cons, h1, h2]
      · have hstep : kwargStep params cls (acc1, acc2) kv = (acc1, acc2) := by
          simp [kwargStep, h1, h2]
        simp [List.foldl_cons, hstep, ih, List.filter_cons, h1, h2]

/-- C8: the encoder-argument filter keeps exactly the entries whose keys
the encoder's forward signature accepts, in order and with their
original values (`None` included), and emits one diagnostic per key that
is not accepted and has a non-`None` value — and no others.  Being a
pure function of its inputs, it modifies neither the input bag nor any
other state. -/
theorem C8_encoder_kwargs_filter {V : Type} (params : List String)
    (cls : String) (kwargs : List (String × Option V)) :
    (generalize_encoder_forward_kwargs params cls kwargs).1 =
        kwargs.filter (fun kv => decide (kv.1 ∈ params))
    ∧ (generalize_encoder_forward_kwargs params cls kwargs).2 =
        (kwargs.filter (fun kv => decide (kv.1 ∉ params) && kv.2.isSome)).map
          (fun kv => paramWarning kv.1 cls) := by
  unfold generalize_encoder_forward_kwargs
  rw [kwargs_foldl_spec]
  simp

/-- C6: `RepresentationProjectionLayer` construction fails exactly when
relation mode is requested with a non-positive head count or the
token-pooling flag is combined with the tagger or relation flag, and
model construction fails on the layer check exactly when the chosen
layer index exceeds the encoder depth; both checks are deterministic
functions of the configuration, run at construction time. -/
theorem C6_construction_validation (tokens tagger relations : Bool)
    (num_attention_heads layer num_layers : Int) :
    (rpl_init_check tokens tagger relations num_attention_heads ≠ .ok () ↔
        (relations = true ∧ num_attention_heads ≤ 0) ∨
          (tokens = true ∧ (tagger = true ∨ relations = true)))
    ∧ (cnlp_model_layer_check layer num_layers ≠ .ok () ↔ layer > num_layers) := by
  constructor
  · constructor
    · intro hne
      by_cases h1 : num_attention_heads ≤ 0 ∧ relations = true
      · exact Or.inl ⟨h1.2, h1.1⟩
      · by_cases h2 : tokens = true ∧ (tagger = true ∨ relations = true)
        · exact Or.inr h2
        · exact absurd (by simp [rpl_init_check, h1, h2]) hne
    · intro h
      unfold rpl_init_check
      split_ifs with h1 h2 <;> simp
      rcases h with ⟨hr, hn⟩ | hty
      · exact h1 ⟨hn, hr⟩
      · exact h2 hty
  · unfold cnlp_model_layer_check
    split_ifs with h <;> simp [h]

/-- On an unsupported rank combination, one loop iteration of the
fan-in augmentation leaves the features unchanged and emits exactly one
diagnostic. -/
theorem augmentWithPrior_unsupported {α : Type} (seq_len : Nat)
    (features prior : PTensor α)
    (h : features.rank = 3 ∨ (features.rank = 4 ∧ prior.rank ≠ 3)) :
    (augmentWithPrior seq_len features prior).1 = features ∧
      (augmentWithPrior seq_len features prior).2.length = 1 := by
  rcases h with h3 | ⟨h4, hp⟩
  · match features with
    | .r3 f => exact ⟨rfl, rfl⟩
  · match features with
    | .r4 f =>
      match prior with
      | .r1 p => exact ⟨rfl, rfl⟩
      | .r2 p => exact ⟨rfl, rfl⟩
      | .r4 p => exact ⟨rfl, rfl⟩

/-- Accumulator-generalized description of the fan-in loop when every
prior has an unsupported rank for the given feature rank. -/
theorem fanin_foldl_unsupported {α : Type} (seq_len : Nat)
    (features : PTensor α) (priors : List (PTensor α)) (ws : List String)
    (h : features.rank = 3 ∨ (features.rank = 4 ∧ ∀ p ∈ priors, p.rank ≠ 3)) :
    (priors.foldl
        (fun acc prior =>
          let step := augmentWithPrior seq_len acc.1 prior
          (step.1, acc.2 ++ step.2))
        (features, ws)).1 = features ∧
      (priors.foldl
          (fun acc prior =>
            let step := augmentWithPrior seq_len acc.1 prior
            (step.1, acc.2 ++ step.2))
          (features, ws)).2.length = ws.length + priors.length := by
  induction priors generalizing ws with
  | nil => exact ⟨rfl, by simp⟩
  | cons p rest ih =>
    have hstep : (augmentWithPrior seq_len features p).1 = features ∧
        (augmentWithPrior seq_len features p).2.length = 1 := by
      apply augmentWithPrior_unsupported
      rcases h with h3 | ⟨h4, hp⟩
      · exact Or.inl h3
      · exact Or.inr ⟨h4, hp p (List.mem_cons_self p rest)⟩
    have hrest : features.rank = 3 ∨
        (features.rank = 4 ∧ ∀ q ∈ rest, q.rank ≠ 3) := by
      rcases h with h3 | ⟨h4, hp⟩
      · exact Or.inl h3
      · exact Or.inr ⟨h4, fun q hq => hp q (List.mem_cons_of_mem p hq)⟩
    simp only [List.foldl_cons]
    rw [hstep.1]
    have hw := ih (ws ++ (augmentWithPrior seq_len features p).2) hrest
    refine ⟨hw.1, ?_⟩
    rw [hw.2, List.length_append, hstep.2, List.length_cons]
    omega

/-- C7: for every unsupported fan-in combination — a rank-3 (non-
relation) feature tensor with any priors, or a rank-4 relation grid
where no prior's logits have rank 3 — the augmentation returns the
feature tensor unchanged and emits exactly one diagnostic per prior; the
embedded function is total, mirroring the absence of any raise path in
the source (only `logger.warning` calls). -/
theorem C7_unsupported_fanin_passthrough {α : Type} (features : PTensor α)
    (priors : List (PTensor α))
    (h : features.rank = 3 ∨ (features.rank = 4 ∧ ∀ p ∈ priors, p.rank ≠ 3)) :
    (predict_relations_with_previous_logits features priors).1 = features ∧
      (predict_relations_with_previous_logits features priors).2.length =
        priors.length := by
  have := fanin_foldl_unsupported features.shape1 features priors [] h
  exact ⟨this.1, by simpa using this.2⟩

/-- C7 witness: a rank-3 feature tensor with one rank-2 prior passes
through unchanged with one diagnostic. -/
theorem C7_unsupported_fanin_passthrough_witness :
    (predict_relations_with_previous_logits (.r3 [[[1]]] : PTensor ℤ)
        [.r2 [[2]]]).1 = .r3 [[[1]]] ∧
      (predict_relations_with_previous_logits (.r3 [[[1]]] : PTensor ℤ)
          [.r2 [[2]]]).2.length = 1 :=
  C7_unsupported_fanin_passthrough (.r3 [[[1]]]) [.r2 [[2]]] (by decide)

/-- C1 counterexample: with batch 1, sequence length 2, one head, and a
prior tagging task with one label whose logits differ across tokens
(`[10]` for token 0, `[20]` for token 1), the appended portion of the
augmented feature at pair `(b, i, j) = (0, 0, 1)` is `[10]` — token
`i = 0`'s logits — and not token `j = 1`'s logits `[20]` as the claim
states: the broadcast repeats along the second sequence axis, so the
appended slice varies with `i` and is constant in `j`. -/
theorem C1_fanin_counterexample :
    (predict_relations_with_previous_logits
        (.r4 [[[[0], [0]], [[0], [0]]]] : PTensor ℤ) [.r3 [[[10], [20]]]]).1 =
        .r4 [[[[0, 10], [0, 10]], [[0, 20], [0, 20]]]]
    ∧ (ent4 [[[[0, 10], [0, 10]], [[0, 20], [0, 20]]]] 0 0 1).drop 1 = [10]
    ∧ ent3 [[[10], [20]]] 0 1 = [20]
    ∧ ([10] : List ℤ) ≠ [20] := by
  decide

/-- `getD` through `zipWith`, for an in-range index. -/
theorem getD_zipWith {α β γ : Type} (g : α → β → γ) (l1 : List α)
    (l2 : List β) (n : Nat) (d1 : α) (d2 : β) (d : γ) (h1 : n < l1.length)
    (h2 : n < l2.length) :
    (List.zipWith g l1 l2).getD n d = g (l1.getD n d1) (l2.getD n d2) := by
  induction l1 generalizing l2 n with
  | nil => simp at h1
  | cons a l ih =>
    cases l2 with
    | nil => simp at h2
    | cons b m =>
      cases n with
      | zero => simp
      | succ k => simpa using ih m k (by simpa using h1) (by simpa using h2)

/-- `getD` through `map`, for an in-range index and any defaults. -/
theorem getD_map_in {α β : Type} (g : α → β) (l : List α) (n : Nat) (d1 : α)
    (d : β) (h : n < l.length) : (l.map g).getD n d = g (l.getD n d1) := by
  induction l generalizing n with
  | nil => simp at h
  | cons a t ih =>
    cases n with
    | zero => simp
    | succ k => simpa using ih k (by simpa using h)

/-- `getD` on `replicate`, for an in-range index. -/
theorem getD_replicate_in {α : Type} (x : α) (s n : Nat) (d : α)
    (h : n < s) : (List.replicate s x).getD n d = x := by
  induction s generalizing n with
  | zero => omega
  | succ k ih =>
    cases n with
    | zero => simp [List.replicate]
    | succ m => simpa [List.replicate] using ih m (by omega)

/-- A `getD` at an in-range index is a member of the list. -/
theorem getD_mem_of_lt {α : Type} (l : List α) (n : Nat) (d : α)
    (h : n < l.length) : l.getD n d ∈ l := by
  rw [List.getD_eq_getElem _ _ h]
  exact List.getElem_mem h

/-- `f` is a `(B, S, S, H)` relation feature grid. -/
def IsGrid4 {α : Type} (B S H : Nat) (f : T4 α) : Prop :=
  f.length = B ∧ ∀ fb ∈ f, fb.length = S ∧
    ∀ fi ∈ fb, fi.length = S ∧ ∀ fij ∈ fi, fij.length = H

/-- `p` is a `(B, S, L)` tagging-logits tensor. -/
def IsLogits3 {α : Type} (B S L : Nat) (p : T3 α) : Prop :=
  p.length = B ∧ ∀ pb ∈ p, pb.length = S ∧ ∀ pv ∈ pb, pv.length = L

/-- C1 (amended): augmenting a `(B, S, S, H)` relation grid with one
prior tagging task's `(B, S, L)` logits concatenates, at every pair
`(b, i, j)`, token `i`'s logits (broadcast along the second sequence
axis `j`), so the trailing dimension grows from `H` to `H + L`. -/
theorem C1_fanin_broadcast {α : Type} (B S H L b i j : Nat) (f : T4 α)
    (p : T3 α) (hf : IsGrid4 B S H f) (hp : IsLogits3 B S L p)
    (hb : b < B) (hi : i < S) (hj : j < S) :
    (predict_relations_with_previous_logits (.r4 f) [.r3 p]).1 =
        .r4 (catDim3 f (broadcastAug S p))
    ∧ ent4 (catDim3 f (broadcastAug S p)) b i j = ent4 f b i j ++ ent3 p b i
    ∧ (ent4 (catDim3 f (broadcastAug S p)) b i j).length = H + L := by
  obtain ⟨hfB, hfrest⟩ := hf
  obtain ⟨hpB, hprest⟩ := hp
  have hbf : b < f.length := by rw [hfB]; exact hb
  have hbp : b < p.length := by rw [hpB]; exact hb
  obtain ⟨hfbS, hfbrest⟩ := hfrest _ (getD_mem_of_lt f b [] hbf)
  obtain ⟨hpbS, hpbrest⟩ := hprest _ (getD_mem_of_lt p b [] hbp)
  have hif : i < (f.getD b []).length := by rw [hfbS]; exact hi
  have hip : i < (p.getD b []).length := by rw [hpbS]; exact hi
  obtain ⟨hfiS, hfirest⟩ := hfbrest _ (getD_mem_of_lt _ i [] hif)
  have hjf : j < ((f.getD b []).getD i []).length := by rw [hfiS]; exact hj
  have hshape : (PTensor.r4 f).shape1 = S := by
    cases f with
    | nil => simp at hbf
    | cons a l =>
      have := (hfrest a (by simp)).1
      simpa [PTensor.shape1] using this
  -- the single-prior loop performs exactly one augmentation step
  have hstep : (predict_relations_with_previous_logits (.r4 f) [.r3 p]).1 =
      .r4 (catDim3 f (broadcastAug S p)) := by
    simp [predict_relations_with_previous_logits, augmentWithPrior, hshape]
  refine ⟨hstep, ?_⟩
  -- pointwise description of the concatenation
  have haugb : b < (broadcastAug S p).length := by
    unfold broadcastAug
    rw [List.length_map]; exact hbp
  have hentry : ent4 (catDim3 f (broadcastAug S p)) b i j =
      ent4 f b i j ++ ent3 p b i := by
    unfold ent4 ent3 catDim3
    rw [getD_zipWith _ f _ b [] [] [] hbf haugb]
    have haugb_val : (broadcastAug S p).getD b [] =
        (p.getD b []).map (fun pl => List.replicate S pl) := by
      unfold broadcastAug
      exact getD_map_in _ p b [] [] hbp
    rw [haugb_val]
    have haugi : i < ((p.getD b []).map (fun pl => List.replicate S pl)).length := by
      rw [List.length_map]; exact hip
    rw [getD_zipWith _ _ _ i [] [] [] hif haugi]
    rw [getD_map_in _ _ i [] [] hip]
    have hjr : j < S := hj
    rw [getD_zipWith _ _ _ j [] [] [] hjf (by rw [List.length_replicate]; exact hjr)]
    rw [getD_replicate_in _ _ _ [] hjr]
  refine ⟨hentry, ?_⟩
  rw [hentry, List.length_append]
  have hH : (ent4 f b i j).length = H := by
    unfold ent4
    exact hfirest _ (getD_mem_of_lt _ j [] hjf)
  have hL : (ent3 p b i).length = L := by
    unfold ent3
    exact hpbrest _ (getD_mem_of_lt _ i [] hip)
  rw [hH, hL]

/-- C1 witness: the amended broadcast fact checked at batch 1, sequence
length 2, one head, one prior label, at pair `(0, 0, 1)`. -/
theorem C1_fanin_broadcast_witness :
    (predict_relations_with_previous_logits
        (.r4 [[[[0], [0]], [[0], [0]]]] : PTensor ℤ) [.r3 [[[10], [20]]]]).1 =
        .r4 (catDim3 [[[[0], [0]], [[0], [0]]]] (broadcastAug 2 [[[10], [20]]]))
    ∧ ent4 (catDim3 ([[[[0], [0]], [[0], [0]]]] : T4 ℤ)
          (broadcastAug 2 [[[10], [20]]])) 0 0 1 =
        ent4 [[[[0], [0]], [[0], [0]]]] 0 0 1 ++ ent3 [[[10], [20]]] 0 0
    ∧ (ent4 (catDim3 ([[[[0], [0]], [[0], [0]]]] : T4 ℤ)
          (broadcastAug 2 [[[10], [20]]])) 0 0 1).length = 1 + 1 :=
  C1_fanin_broadcast 1 2 1 1 0 0 1 [[[[0], [0]], [[0], [0]]]] [[[10], [20]]]
    (by unfold IsGrid4; decide) (by unfold IsLogits3; decide)
    (by decide) (by decide) (by decide)

/-- The claim's addressing rule for a plain classification task,
written from the spec's words for comparison with the source's
`classificationTaskLabels`: the label column is taken at the running
cursor instead of at the fixed task index. -/
def classificationLabelsAtCursor (labels : PTensor ℚ) (cursor : Nat) :
    Except String (T1 ℚ) :=
  match labels with
  | .r1 l => .ok l
  | .r2 l => .ok (l.map (fun lb => lb.getD cursor 0))
  | .r3 l => .ok (l.map (fun lb => (lb.getD 0 []).getD cursor 0))
  | .r4 _ => .error "unsupported label tensor rank"

/-- C2 counterexample: a relation task (3 labels, sequence length 2)
processed first advances the cursor from 0 to 2; the plain
classification task at index 1 then reads label column 1 (`[5]`) — the
fixed task index — whereas the claim's cursor addressing would read
column 2 (`[7]`). -/
theorem C2_classification_cursor_counterexample :
    compute_loss (fun _ _ => 0) (fun _ _ => 0)
        [⟨true, false, 3⟩, ⟨false, false, 2⟩] 1
        (.r4 [[[[0, 0, 0], [0, 0, 0]], [[0, 0, 0], [0, 0, 0]]]])
        (.r3 [[[9, 5, 7], [9, 9, 9]]]) 0 3 1 2 ⟨none, 0⟩ = .ok ⟨some 0, 2⟩
    ∧ classificationTaskLabels (.r3 [[[9, 5, 7], [9, 9, 9]]]) 1 = .ok [5]
    ∧ classificationLabelsAtCursor (.r3 [[[9, 5, 7], [9, 9, 9]]]) 2 = .ok [7]
    ∧ ([5] : List ℚ) ≠ [7] := by
  refine ⟨rfl, rfl, rfl, ?_⟩
  simp

/-- C2 (amended): during loss computation a plain classification task
(not tagging, not relation, more than one label) locates its labels with
the fixed task index `task_ind` — rank 1 keeps the whole tensor, rank 2
takes the column at `task_ind`, rank 3 the column at `task_ind` under
secondary index 0 — independent of the running cursor, which the task
then advances by 1. -/
theorem C2_classification_label_addressing
    (ce : PTensor ℚ → PTensor ℚ → ℚ) (mse : List ℚ → List ℚ → ℚ)
    (tasks : List TaskConfig) (w : ℚ) (task_logits labels : PTensor ℚ)
    (task_ind task_num_labels bs sl : Nat) (state : LossState) (tl : T1 ℚ)
    (hnl : task_num_labels ≠ 1)
    (hrel : (tasks.getD task_ind default).isRelation = false)
    (htag : (tasks.getD task_ind default).isTagger = false)
    (hsel : classificationTaskLabels labels task_ind = .ok tl) :
    compute_loss ce mse tasks w task_logits labels task_ind task_num_labels
        bs sl state =
      .ok ⟨some (state.loss.elim (ce task_logits (.r1 tl))
          (fun prev => prev +
            (if task_ind + 1 < tasks.length then 1 else w) *
              ce task_logits (.r1 tl))),
        state.task_label_ind + 1⟩
    ∧ (∀ l1, labels = .r1 l1 → tl = l1)
    ∧ (∀ l2, labels = .r2 l2 → tl = l2.map (fun lb => lb.getD task_ind 0))
    ∧ (∀ l3, labels = .r3 l3 →
        tl = l3.map (fun lb => (lb.getD 0 []).getD task_ind 0)) := by
  refine ⟨?_, ?_, ?_, ?_⟩
  · have hbranch : task_loss_and_cursor ce mse (tasks.getD task_ind default)
        task_logits labels task_ind task_num_labels bs sl
        state.task_label_ind =
        .ok (ce task_logits (.r1 tl), state.task_label_ind + 1) := by
      have hrel' : (tasks[task_ind]?.getD default).isRelation = false := by
        simpa [List.getD_eq_getElem?_getD] using hrel
      have htag' : (tasks[task_ind]?.getD default).isTagger = false := by
        simpa [List.getD_eq_getElem?_getD] using htag
      unfold task_loss_and_cursor
      simp [hnl, hrel, htag, hrel', htag', hsel, Except.map]
    unfold compute_loss
    rw [hbranch]
    cases hls : state.loss with
    | none => simp [Except.map, hls]
    | some prev => simp [Except.map, hls]
  · intro l1 h1
    rw [h1] at hsel
    simpa [classificationTaskLabels] using hsel.symm
  · intro l2 h2
    rw [h2] at hsel
    simpa [classificationTaskLabels] using hsel.symm
  · intro l3 h3
    rw [h3] at hsel
    simpa [classificationTaskLabels] using hsel.symm

/-- C2 witness: one classification task with two labels, rank-2 labels
`[[3, 4]]`, task index 0, and a deliberately nonzero cursor 5: the
selected labels are column 0 and the cursor advances to 6. -/
theorem C2_classification_label_addressing_witness :
    compute_loss (fun _ lt => lt.unr1.sum) (fun _ _ => 0)
        [⟨false, false, 2⟩] 1 (.r1 [0, 0]) (.r2 [[3, 4]]) 0 2 1 1
        ⟨none, 5⟩ =
      .ok ⟨some ((Option.none (α := ℚ)).elim
          ((fun (_ : PTensor ℚ) (lt : PTensor ℚ) => lt.unr1.sum) (.r1 [0, 0])
            (.r1 [3]))
          (fun prev => prev +
            (if 0 + 1 < ([⟨false, false, 2⟩] : List TaskConfig).length then 1
              else 1) *
              (fun (_ : PTensor ℚ) (lt : PTensor ℚ) => lt.unr1.sum)
                (.r1 [0, 0]) (.r1 [3]))),
        5 + 1⟩
    ∧ (∀ l1, (.r2 [[3, 4]] : PTensor ℚ) = .r1 l1 → [3] = l1)
    ∧ (∀ l2, (.r2 [[3, 4]] : PTensor ℚ) = .r2 l2 →
        [3] = l2.map (fun lb => lb.getD 0 0))
    ∧ (∀ l3, (.r2 [[3, 4]] : PTensor ℚ) = .r3 l3 →
        [3] = l3.map (fun lb => (lb.getD 0 []).getD 0 0)) :=
  C2_classification_label_addressing (fun _ lt => lt.unr1.sum) (fun _ _ => 0)
    [⟨false, false, 2⟩] 1 (.r1 [0, 0]) (.r2 [[3, 4]]) 0 2 1 1 ⟨none, 5⟩ [3]
    (by decide) rfl rfl rfl

/-- The cursor component produced by the branch dispatch of
`compute_loss`: regression leaves it, a relation task adds `seq_len`,
tagging and plain classification add 1. -/
theorem task_loss_and_cursor_snd (ce : PTensor ℚ → PTensor ℚ → ℚ)
    (mse : List ℚ → List ℚ → ℚ) (tc : TaskConfig)
    (task_logits labels : PTensor ℚ) (task_ind task_num_labels bs sl : Nat)
    (cursor : Nat) (q : ℚ) (c : Nat)
    (hok : task_loss_and_cursor ce mse tc task_logits labels task_ind
        task_num_labels bs sl cursor = .ok (q, c)) :
    c = cursor + (if task_num_labels = 1 then 0
      else if tc.isRelation = true then sl else 1) := by
  unfold task_loss_and_cursor at hok
  by_cases h1 : task_num_labels = 1
  · rw [if_pos h1] at hok
    simp [h1] at hok ⊢
    omega
  · rw [if_neg h1] at hok
    rw [if_neg h1]
    by_cases h2 : tc.isRelation = true
    · rw [if_pos h2] at hok
      rw [if_pos h2]
      cases hsel : relationTaskLabels labels cursor sl with
      | error e => rw [hsel] at hok; simp [Except.map] at hok
      | ok v =>
        rw [hsel] at hok
        simp [Except.map] at hok
        exact hok.2.symm
    · rw [if_neg h2] at hok
      rw [if_neg h2]
      by_cases h3 : tc.isTagger = true
      · rw [if_pos h3] at hok
        cases hsel : taggerTaskLabels labels cursor with
        | error e => rw [hsel] at hok; simp [Except.map] at hok
        | ok v =>
          rw [hsel] at hok
          simp [Except.map] at hok
          exact hok.2.symm
      · rw [if_neg h3] at hok
        cases hsel : classificationTaskLabels labels task_ind with
        | error e => rw [hsel] at hok; simp [Except.map] at hok
        | ok v =>
          rw [hsel] at hok
          simp [Except.map] at hok
          exact hok.2.symm

/-- C10: a regression task (label count exactly 1) never advances the
label cursor; otherwise a relation task advances it by `seq_len` and a
tagging or plain (multi-label) classification task advances it by 1 —
so a task following a regression task finds its label slice as if the
regression task occupied no label columns. -/
theorem C10_regression_cursor (ce : PTensor ℚ → PTensor ℚ → ℚ)
    (mse : List ℚ → List ℚ → ℚ) (tasks : List TaskConfig) (w : ℚ)
    (task_logits labels : PTensor ℚ) (task_ind task_num_labels bs sl : Nat)
    (state : LossState) (st' : LossState)
    (hok : compute_loss ce mse tasks w task_logits labels task_ind
        task_num_labels bs sl state = .ok st') :
    st'.task_label_ind = state.task_label_ind +
      (if task_num_labels = 1 then 0
        else if (tasks.getD task_ind default).isRelation = true then sl
        else 1) := by
  unfold compute_loss at hok
  cases hsel : task_loss_and_cursor ce mse (tasks.getD task_ind default)
      task_logits labels task_ind task_num_labels bs sl
      state.task_label_ind with
  | error e => rw [hsel] at hok; simp [Except.map] at hok
  | ok v =>
    rw [hsel] at hok
    have hc := task_loss_and_cursor_snd ce mse (tasks.getD task_ind default)
      task_logits labels task_ind task_num_labels bs sl
      state.task_label_ind v.1 v.2 (by rw [hsel])
    cases hls : state.loss with
    | none =>
      rw [hls] at hok
      simp [Except.map] at hok
      rw [← hok]
      exact hc
    | some prev =>
      rw [hls] at hok
      simp [Except.map] at hok
      rw [← hok]
      exact hc

/-- C10 witness: a regression task (1 label) starting at cursor 5
leaves the cursor at 5. -/
theorem C10_regression_cursor_witness :
    (⟨some 2, 5⟩ : LossState).task_label_ind =
      (⟨none, 5⟩ : LossState).task_label_ind +
        (if 1 = 1 then 0
          else if (([⟨false, false, 1⟩] : List TaskConfig).getD 0
              default).isRelation = true then 7
          else 1) :=
  C10_regression_cursor (fun _ _ => 0) (fun _ _ => 2) [⟨false, false, 1⟩] 1
    (.r1 [0]) (.r1 [0]) 0 1 1 7 ⟨none, 5⟩ ⟨some 2, 5⟩ rfl

/-- C5 counterexample: with a single declared task and
`final_task_weight = 1/2`, the task is the last task yet its loss enters
unweighted — the first contribution initializes the running loss without
any weight — so the aggregate is `1`, not the claim's `1/2 · 1`. -/
theorem C5_single_task_counterexample :
    compute_loss (fun _ _ => 1) (fun _ _ => 0) [⟨false, false, 2⟩] (1 / 2)
        (.r1 [0]) (.r1 [0]) 0 2 1 1 ⟨none, 0⟩ = .ok ⟨some 1, 1⟩
    ∧ (1 : ℚ) ≠ (1 / 2) * 1 := by
  refine ⟨rfl, by norm_num⟩

/-- The cursor trajectory of a chain of `compute_loss` calls: starting
from task `t` with cursor `cur`, where `cf i c` is the cursor produced
by task `i`'s branch dispatch when entered at cursor `c`; the third
argument is the number of consecutive tasks processed. -/
def chainCursor (cf : Nat → Nat → Nat) : Nat → Nat → Nat → Nat
  | _, cur, 0 => cur
  | t, cur, len + 1 => chainCursor cf (t + 1) (cf t cur) len

/-- The per-task loss values along that trajectory, where `Lf i c` is
the loss value task `i`'s branch dispatch computes when entered at
cursor `c`. -/
def lossList (Lf : Nat → Nat → ℚ) (cf : Nat → Nat → Nat) :
    Nat → Nat → Nat → List ℚ
  | _, _, 0 => []
  | t, cur, len + 1 => Lf t cur :: lossList Lf cf (t + 1) (cf t cur) len

/-- The weighted sum the loss fold accumulates over tasks
`t, …, t + len - 1` of an `n`-task model once the running loss is
initialized: weight 1 for every task except the globally last one,
which gets `w`. -/
def chainSum (w : ℚ) (Lf : Nat → Nat → ℚ) (cf : Nat → Nat → Nat)
    (n : Nat) : Nat → Nat → Nat → ℚ
  | _, _, 0 => 0
  | t, cur, len + 1 =>
    (if t + 1 < n then (1 : ℚ) else w) * Lf t cur +
      chainSum w Lf cf n (t + 1) (cf t cur) len

/-- `lossList` produces one loss value per processed task. -/
theorem lossList_length (Lf : Nat → Nat → ℚ) (cf : Nat → Nat → Nat) :
    ∀ (len t cur : Nat), (lossList Lf cf t cur len).length = len := by
  intro len
  induction len with
  | zero => intro t cur; rfl
  | succ k ih =>
    intro t cur
    simp [lossList, ih (t + 1) (cf t cur)]

/-- Once the running loss holds `acc`, folding `compute_loss` over the
remaining tasks `t, …, t + len - 1` adds the weighted sum of their
losses and drives the cursor along the trajectory. -/
theorem compute_loss_chain_fold (ce : PTensor ℚ → PTensor ℚ → ℚ)
    (mse : List ℚ → List ℚ → ℚ) (tasks : List TaskConfig) (w : ℚ)
    (lgf : Nat → PTensor ℚ) (labels : PTensor ℚ) (nlf : Nat → Nat)
    (bs sl : Nat) (Lf : Nat → Nat → ℚ) (cf : Nat → Nat → Nat)
    (hchain : ∀ i cursor, i < tasks.length →
      task_loss_and_cursor ce mse (tasks.getD i default) (lgf i) labels i
        (nlf i) bs sl cursor = .ok (Lf i cursor, cf i cursor)) :
    ∀ (len t : Nat) (acc : ℚ) (cur : Nat), t + len = tasks.length →
      (List.range' t len).foldlM
          (fun st i =>
            compute_loss ce mse tasks w (lgf i) labels i (nlf i) bs sl st)
          ⟨some acc, cur⟩ =
        .ok ⟨some (acc + chainSum w Lf cf tasks.length t cur len),
          chainCursor cf t cur len⟩ := by
  intro len
  induction len with
  | zero =>
    intro t acc cur hsum
    simp [chainSum, chainCursor, pure, Except.pure]
  | succ k ih =>
    intro t acc cur hsum
    rw [List.range'_succ, List.foldlM_cons]
    have hstep : compute_loss ce mse tasks w (lgf t) labels t (nlf t) bs sl
        ⟨some acc, cur⟩ =
        .ok ⟨some (acc + (if t + 1 < tasks.length then (1 : ℚ) else w) *
            Lf t cur), cf t cur⟩ := by
      unfold compute_loss
      simp only []
      rw [hchain t cur (by omega)]
      rfl
    rw [hstep]
    simp only [bind, Except.bind]
    rw [ih (t + 1)
      (acc + (if t + 1 < tasks.length then (1 : ℚ) else w) * Lf t cur)
      (cf t cur) (by omega)]
    have hval : acc +
        (if t + 1 < tasks.length then (1 : ℚ) else w) * Lf t cur +
        chainSum w Lf cf tasks.length (t + 1) (cf t cur) k =
        acc + chainSum w Lf cf tasks.length t cur (k + 1) := by
      rw [show chainSum w Lf cf tasks.length t cur (k + 1) =
        (if t + 1 < tasks.length then (1 : ℚ) else w) * Lf t cur +
          chainSum w Lf cf tasks.length (t + 1) (cf t cur) k from rfl]
      ring
    rw [hval]
    rfl

/-- Over the suffix that ends at the last task, the accumulated
weighted sum is: every loss except the last with weight 1, the last
with `w`. -/
theorem chainSum_closed (w : ℚ) (Lf : Nat → Nat → ℚ)
    (cf : Nat → Nat → Nat) (n : Nat) :
    ∀ (len t cur : Nat), t + len = n → 1 ≤ len →
      chainSum w Lf cf n t cur len =
        (lossList Lf cf t cur len).dropLast.sum +
          w * (lossList Lf cf t cur len).getD (len - 1) 0 := by
  intro len
  induction len with
  | zero => intro t cur h1 h2; omega
  | succ m ih =>
    intro t cur hsum hpos
    by_cases hm : m = 0
    · subst hm
      have hlt : ¬ (t + 1 < n) := by omega
      simp [chainSum, lossList, hlt]
    · have hm1 : 1 ≤ m := by omega
      have hlt : t + 1 < n := by omega
      have htail_ne : lossList Lf cf (t + 1) (cf t cur) m ≠ [] := by
        intro hcon
        have hl := lossList_length Lf cf m (t + 1) (cf t cur)
        rw [hcon] at hl
        simp at hl
        omega
      rw [show chainSum w Lf cf n t cur (m + 1) =
        (if t + 1 < n then (1 : ℚ) else w) * Lf t cur +
          chainSum w Lf cf n (t + 1) (cf t cur) m from rfl]
      rw [if_pos hlt, ih (t + 1) (cf t cur) (by omega) hm1]
      rw [show lossList Lf cf t cur (m + 1) =
        Lf t cur :: lossList Lf cf (t + 1) (cf t cur) m from rfl]
      rw [List.dropLast_cons_of_ne_nil htail_ne, List.sum_cons]
      have hgd : (Lf t cur :: lossList Lf cf (t + 1) (cf t cur) m).getD
          (m + 1 - 1) 0 =
          (lossList Lf cf (t + 1) (cf t cur) m).getD (m - 1) 0 := by
        rw [show m + 1 - 1 = (m - 1) + 1 from by omega]
        rfl
      rw [hgd]
      ring

/-- C5 (amended): for every model with at least two declared tasks, the
aggregated loss over a full run of `compute_loss` in task order is the
weighted SUM of the per-task losses — every loss except the last with
weight 1 (the first enters unweighted when it initializes the running
loss, which coincides with weight 1), the last with
`final_task_weight` — so for 3 tasks with `w = 1/2` it is
`L1 + L2 + (1/2)·L3`, not an average.  (With a single task the weight
is skipped — see the counterexample.) -/
theorem C5_loss_aggregation (ce : PTensor ℚ → PTensor ℚ → ℚ)
    (mse : List ℚ → List ℚ → ℚ) (tasks : List TaskConfig) (w : ℚ)
    (lgf : Nat → PTensor ℚ) (labels : PTensor ℚ) (nlf : Nat → Nat)
    (bs sl : Nat) (Lf : Nat → Nat → ℚ) (cf : Nat → Nat → Nat)
    (hn : 2 ≤ tasks.length)
    (hchain : ∀ i cursor, i < tasks.length →
      task_loss_and_cursor ce mse (tasks.getD i default) (lgf i) labels i
        (nlf i) bs sl cursor = .ok (Lf i cursor, cf i cursor)) :
    (List.range tasks.length).foldlM
        (fun st i =>
          compute_loss ce mse tasks w (lgf i) labels i (nlf i) bs sl st)
        ⟨none, 0⟩ =
      .ok ⟨some ((lossList Lf cf 0 0 tasks.length).dropLast.sum +
          w * (lossList Lf cf 0 0 tasks.length).getD
            (tasks.length - 1) 0),
        chainCursor cf 0 0 tasks.length⟩ := by
  obtain ⟨m, hm⟩ : ∃ m, tasks.length = m + 2 := ⟨tasks.length - 2, by omega⟩
  rw [List.range_eq_range']
  rw [hm]
  rw [List.range'_succ, List.foldlM_cons]
  have hstep0 : compute_loss ce mse tasks w (lgf 0) labels 0 (nlf 0) bs sl
      ⟨none, 0⟩ = .ok ⟨some (Lf 0 0), cf 0 0⟩ := by
    unfold compute_loss
    simp only []
    rw [hchain 0 0 (by omega)]
    rfl
  rw [hstep0]
  simp only [bind, Except.bind]
  rw [compute_loss_chain_fold ce mse tasks w lgf labels nlf bs sl Lf cf
    hchain (m + 1) 1 (Lf 0 0) (cf 0 0) (by omega)]
  have htail_ne : lossList Lf cf 1 (cf 0 0) (m + 1) ≠ [] := by
    intro hcon
    have hl := lossList_length Lf cf (m + 1) 1 (cf 0 0)
    rw [hcon] at hl
    simp at hl
  have hval : Lf 0 0 + chainSum w Lf cf tasks.length 1 (cf 0 0) (m + 1) =
      (lossList Lf cf 0 0 (m + 2)).dropLast.sum +
        w * (lossList Lf cf 0 0 (m + 2)).getD (m + 2 - 1) 0 := by
    rw [chainSum_closed w Lf cf tasks.length (m + 1) 1 (cf 0 0) (by omega)
      (by omega)]
    rw [show lossList Lf cf 0 0 (m + 2) =
      Lf 0 0 :: lossList Lf cf 1 (cf 0 0) (m + 1) from rfl]
    rw [List.dropLast_cons_of_ne_nil htail_ne, List.sum_cons]
    rw [show m + 2 - 1 = (m + 1 - 1) + 1 from by omega]
    rw [show (Lf 0 0 :: lossList Lf cf 1 (cf 0 0) (m + 1)).getD
        ((m + 1 - 1) + 1) 0 =
        (lossList Lf cf 1 (cf 0 0) (m + 1)).getD (m + 1 - 1) 0 from rfl]
    ring
  rw [hval]
  rfl

/-- C5 witness: three two-label classification tasks with unit
cross-entropy values and `final_task_weight = 1/2` aggregate to
`1 + 1 + (1/2)·1` with the cursor ending at 3. -/
theorem C5_loss_aggregation_witness :
    (List.range ([⟨false, false, 2⟩, ⟨false, false, 2⟩,
        ⟨false, false, 2⟩] : List TaskConfig).length).foldlM
        (fun st i =>
          compute_loss (fun _ _ => 1) (fun _ _ => 0)
            [⟨false, false, 2⟩, ⟨false, false, 2⟩, ⟨false, false, 2⟩]
            (1 / 2) (.r1 [0]) (.r2 [[0, 0, 0]]) i 2 1 1 st)
        ⟨none, 0⟩ =
      .ok ⟨some ((lossList (fun _ _ => 1) (fun _ c => c + 1) 0 0
          ([⟨false, false, 2⟩, ⟨false, false, 2⟩,
            ⟨false, false, 2⟩] : List TaskConfig).length).dropLast.sum +
        (1 / 2) * (lossList (fun _ _ => 1) (fun _ c => c + 1) 0 0
          ([⟨false, false, 2⟩, ⟨false, false, 2⟩,
            ⟨false, false, 2⟩] : List TaskConfig).length).getD
          (([⟨false, false, 2⟩, ⟨false, false, 2⟩,
            ⟨false, false, 2⟩] : List TaskConfig).length - 1) 0),
        chainCursor (fun _ c => c + 1) 0 0
          ([⟨false, false, 2⟩, ⟨false, false, 2⟩,
            ⟨false, false, 2⟩] : List TaskConfig).length⟩ :=
  C5_loss_aggregation (fun _ _ => 1) (fun _ _ => 0)
    [⟨false, false, 2⟩, ⟨false, false, 2⟩, ⟨false, false, 2⟩] (1 / 2)
    (fun _ => .r1 [0]) (.r2 [[0, 0, 0]]) (fun _ => 2) 1 1
    (fun _ _ => 1) (fun _ c => c + 1) (by norm_num)
    (by
      intro i cursor hi
      have hi3 : i < 3 := by simpa using hi
      interval_cases i <;> rfl)

/-- Every successful `compute_loss` call leaves a present loss: each
branch computes a task loss and folds it into `state.loss` as
`some _`. -/
theorem compute_loss_loss_isSome (ce : PTensor ℚ → PTensor ℚ → ℚ)
    (mse : List ℚ → List ℚ → ℚ) (tasks : List TaskConfig) (w : ℚ)
    (task_logits labels : PTensor ℚ) (task_ind task_num_labels bs sl : Nat)
    (state : LossState) (st' : LossState)
    (hok : compute_loss ce mse tasks w task_logits labels task_ind
        task_num_labels bs sl state = .ok st') :
    st'.loss.isSome = true := by
  unfold compute_loss at hok
  cases hsel : task_loss_and_cursor ce mse (tasks.getD task_ind default)
      task_logits labels task_ind task_num_labels bs sl
      state.task_label_ind with
  | error e => rw [hsel] at hok; simp [Except.map] at hok
  | ok v =>
    rw [hsel] at hok
    cases hls : state.loss with
    | none =>
      rw [hls] at hok
      simp [Except.map] at hok
      rw [← hok]
      rfl
    | some prev =>
      rw [hls] at hok
      simp [Except.map] at hok
      rw [← hok]
      rfl

/-- A successful `forwardStep` appends exactly this task's logits to the
accumulated list, and either leaves the loss state untouched (no labels)
or produces a state with a present loss (labels supplied). -/
theorem forwardStep_ok (m : CnlpModel) (ce : PTensor ℚ → PTensor ℚ → ℚ)
    (mse : List ℚ → List ℚ → ℚ) (extract : Nat → PTensor ℚ)
    (classify : Nat → PTensor ℚ → PTensor ℚ) (labels : Option (PTensor ℚ))
    (bs sl : Nat) (acc : List (PTensor ℚ) × LossState) (i : Nat)
    (r : List (PTensor ℚ) × LossState)
    (hok : forwardStep m ce mse extract classify labels bs sl acc i = .ok r) :
    r.1 = acc.1 ++ [classify i (taskFeatures m extract i acc.1)]
    ∧ ((labels = none ∧ r.2 = acc.2) ∨
        (labels.isSome = true ∧ r.2.loss.isSome = true)) := by
  unfold forwardStep at hok
  cases labels with
  | none =>
    simp at hok
    exact ⟨by rw [← hok], Or.inl ⟨rfl, by rw [← hok]⟩⟩
  | some lbls =>
    simp only [] at hok
    cases hcl : compute_loss ce mse m.tasks m.final_task_weight
        (classify i (taskFeatures m extract i acc.1)) lbls i
        (m.tasks.getD i default).numLabels bs sl acc.2 with
    | error e => rw [hcl] at hok; simp [Except.map] at hok
    | ok st1 =>
      rw [hcl] at hok
      simp [Except.map] at hok
      refine ⟨by rw [← hok], Or.inr ⟨rfl, ?_⟩⟩
      rw [← hok]
      exact compute_loss_loss_isSome ce mse m.tasks m.final_task_weight
        (classify i (taskFeatures m extract i acc.1)) lbls i
        (m.tasks.getD i default).numLabels bs sl acc.2 st1 hcl

/-- Accumulator-generalized loss/length behavior of the forward loop:
the logits list grows by one entry per processed task, and after the
loop the loss is present exactly when it was already present or labels
were supplied and at least one task was processed. -/
theorem forward_foldlM_loss (m : CnlpModel) (ce : PTensor ℚ → PTensor ℚ → ℚ)
    (mse : List ℚ → List ℚ → ℚ) (extract : Nat → PTensor ℚ)
    (classify : Nat → PTensor ℚ → PTensor ℚ) (labels : Option (PTensor ℚ))
    (bs sl : Nat) (inds : List Nat) (lgs : List (PTensor ℚ)) (st : LossState)
    (lg' : List (PTensor ℚ)) (st' : LossState)
    (hok : inds.foldlM (forwardStep m ce mse extract classify labels bs sl)
        (lgs, st) = .ok (lg', st')) :
    lg'.length = lgs.length + inds.length
    ∧ (st'.loss.isSome = true ↔
        (st.loss.isSome = true ∨ (labels.isSome = true ∧ inds ≠ []))) := by
  induction inds generalizing lgs st with
  | nil =>
    rw [List.foldlM_nil] at hok
    have h1 : lgs = lg' ∧ st = st' := by
      simpa [pure, Except.pure] using hok
    obtain ⟨hl, hs⟩ := h1
    subst hl
    subst hs
    simp
  | cons i rest ih =>
    rw [List.foldlM_cons] at hok
    cases hstep : forwardStep m ce mse extract classify labels bs sl
        (lgs, st) i with
    | error e => rw [hstep] at hok; simp [Except.bind, bind] at hok
    | ok acc1 =>
      rw [hstep] at hok
      have hok' : rest.foldlM
          (forwardStep m ce mse extract classify labels bs sl)
          (acc1.1, acc1.2) = .ok (lg', st') := by
        simpa [Except.bind, bind] using hok
      obtain ⟨hlen1, hstate1⟩ := forwardStep_ok m ce mse extract classify
        labels bs sl (lgs, st) i acc1 hstep
      obtain ⟨hlen', hloss'⟩ := ih acc1.1 acc1.2 hok'
      constructor
      · rw [hlen', hlen1]
        simp
        omega
      · rcases hstate1 with ⟨hnone, hsame⟩ | ⟨hsome, hset⟩
        · subst hnone
          rw [hsame] at hloss'
          rw [hloss']
          simp
        · rw [hloss']
          simp [hsome, hset]

/-- Accumulator-generalized order of the logits produced by the forward
loop over consecutive task indices: the final list preserves what was
already accumulated, and entry `k` is task `k`'s classifier applied to
task `k`'s features computed from the logits of the tasks before it. -/
theorem forward_foldlM_order (m : CnlpModel) (ce : PTensor ℚ → PTensor ℚ → ℚ)
    (mse : List ℚ → List ℚ → ℚ) (extract : Nat → PTensor ℚ)
    (classify : Nat → PTensor ℚ → PTensor ℚ) (labels : Option (PTensor ℚ))
    (bs sl : Nat) (len : Nat) :
    ∀ (s : Nat) (lgs : List (PTensor ℚ)) (st : LossState)
      (lg' : List (PTensor ℚ)) (st' : LossState), lgs.length = s →
      (List.range' s len).foldlM
          (forwardStep m ce mse extract classify labels bs sl) (lgs, st) =
        .ok (lg', st') →
      lg'.take s = lgs
      ∧ ∀ k, s ≤ k → k < s + len →
          lg'.getD k (.r1 []) =
            classify k (taskFeatures m extract k (lg'.take k)) := by
  induction len with
  | zero =>
    intro s lgs st lg' st' hlen hok
    rw [show List.range' s 0 = [] from rfl, List.foldlM_nil] at hok
    have h1 : lgs = lg' := by
      have h2 : lgs = lg' ∧ st = st' := by
        simpa [pure, Except.pure] using hok
      exact h2.1
    subst h1
    refine ⟨by rw [← hlen]; exact List.take_length lgs, ?_⟩
    intro k h1 h2
    omega
  | succ n ih =>
    intro s lgs st lg' st' hlen hok
    rw [List.range'_succ, List.foldlM_cons] at hok
    cases hstep : forwardStep m ce mse extract classify labels bs sl
        (lgs, st) s with
    | error e => rw [hstep] at hok; simp [Except.bind, bind] at hok
    | ok acc1 =>
      rw [hstep] at hok
      have hok' : (List.range' (s + 1) n).foldlM
          (forwardStep m ce mse extract classify labels bs sl)
          (acc1.1, acc1.2) = .ok (lg', st') := by
        simpa [Except.bind, bind] using hok
      obtain ⟨hacc1, _⟩ := forwardStep_ok m ce mse extract classify labels
        bs sl (lgs, st) s acc1 hstep
      have hlen1 : acc1.1.length = s + 1 := by
        rw [hacc1]
        simp [hlen]
      obtain ⟨htake1, hrest⟩ := ih (s + 1) acc1.1 acc1.2 lg' st' hlen1 hok'
      have hlg_long : s + 1 ≤ lg'.length := by
        have := congrArg List.length htake1
        rw [List.length_take, hlen1] at this
        omega
      have htakes : lg'.take s = lgs := by
        have h1 : lg'.take s = (lg'.take (s + 1)).take s := by
          rw [List.take_take]
          congr 1
          omega
        rw [h1, htake1, hacc1, ← hlen]
        exact List.take_left lgs _
      refine ⟨htakes, ?_⟩
      intro k h1 h2
      by_cases hk : k = s
      · subst hk
        have hgd : lg'.getD k (.r1 []) = (lg'.take (k + 1)).getD k (.r1 []) := by
          rw [List.getD_eq_getElem _ _ (by omega),
            List.getD_eq_getElem _ _ (by rw [List.length_take]; omega)]
          rw [List.getElem_take]
        rw [hgd, htake1, hacc1]
        rw [show k = lgs.length from hlen.symm]
        rw [List.getD_append_right _ _ _ _ (Nat.le_refl _), Nat.sub_self]
        rw [← show k = lgs.length from hlen.symm]
        rw [htakes]
        rfl
      · exact hrest k (by omega) (by omega)

/-- C9: a successful forward call returns exactly one logits tensor per
declared task — entry `k` is task `k`'s classifier output on task `k`'s
features, computed from the logits of the previously processed tasks in
declared order — and the returned loss is present if and only if labels
were supplied. -/
theorem C9_forward_contract (m : CnlpModel)
    (ce : PTensor ℚ → PTensor ℚ → ℚ) (mse : List ℚ → List ℚ → ℚ)
    (extract : Nat → PTensor ℚ) (classify : Nat → PTensor ℚ → PTensor ℚ)
    (labels : Option (PTensor ℚ)) (bs sl : Nat) (lg : List (PTensor ℚ))
    (loss : Option ℚ) (k : Nat) (hk : k < m.tasks.length)
    (hok : cnlp_forward m ce mse extract classify labels bs sl =
      .ok (lg, loss)) :
    lg.length = m.tasks.length
    ∧ lg.getD k (.r1 []) = classify k (taskFeatures m extract k (lg.take k))
    ∧ (loss.isSome = true ↔ labels.isSome = true) := by
  unfold cnlp_forward at hok
  cases hfold : (List.range m.tasks.length).foldlM
      (forwardStep m ce mse extract classify labels bs sl)
      ([], ⟨none, 0⟩) with
  | error e => rw [hfold] at hok; simp [Except.map] at hok
  | ok res =>
    rw [hfold] at hok
    simp [Except.map] at hok
    have hlg : res.1 = lg := hok.1
    have hloss : res.2.loss = loss := hok.2
    have hfold' : (List.range m.tasks.length).foldlM
        (forwardStep m ce mse extract classify labels bs sl)
        ([], ⟨none, 0⟩) = .ok (res.1, res.2) := hfold
    obtain ⟨hlen, hiff⟩ := forward_foldlM_loss m ce mse extract classify
      labels bs sl (List.range m.tasks.length) [] ⟨none, 0⟩ res.1 res.2 hfold'
    have hfold'' : (List.range' 0 m.tasks.length).foldlM
        (forwardStep m ce mse extract classify labels bs sl)
        ([], ⟨none, 0⟩) = .ok (res.1, res.2) := by
      rw [← List.range_eq_range']
      exact hfold'
    obtain ⟨-, horder⟩ := forward_foldlM_order m ce mse extract classify
      labels bs sl m.tasks.length 0 [] ⟨none, 0⟩ res.1 res.2 rfl hfold''
    refine ⟨?_, ?_, ?_⟩
    · rw [← hlg, hlen]
      simp
    · rw [← hlg]
      exact horder k (Nat.zero_le k) (by omega)
    · rw [← hloss]
      rw [hiff]
      have hne : List.range m.tasks.length ≠ [] := by
        intro hcon
        rw [List.range_eq_nil] at hcon
        omega
      simp [hne]

/-- C9 witness: one two-label classification task with labels supplied
returns one logits tensor and a present loss. -/
theorem C9_forward_contract_witness :
    ([PTensor.r1 [7]] : List (PTensor ℚ)).length =
        (CnlpModel.mk [⟨false, false, 2⟩] 1 false).tasks.length
    ∧ ([PTensor.r1 [7]] : List (PTensor ℚ)).getD 0 (.r1 []) =
        (fun (_ : Nat) (_ : PTensor ℚ) => (.r1 [7] : PTensor ℚ)) 0
          (taskFeatures (CnlpModel.mk [⟨false, false, 2⟩] 1 false)
            (fun _ => .r1 [0]) 0 (([PTensor.r1 [7]] : List (PTensor ℚ)).take 0))
    ∧ ((some (3 : ℚ)).isSome = true ↔
        (some (.r1 [0] : PTensor ℚ)).isSome = true) :=
  C9_forward_contract (CnlpModel.mk [⟨false, false, 2⟩] 1 false)
    (fun _ _ => 3) (fun _ _ => 0) (fun _ => .r1 [0])
    (fun _ _ => .r1 [7]) (some (.r1 [0])) 1 1 [.r1 [7]] (some 3) 0
    (by decide) rfl

/-- The spec's notion for token pooling, written from its words for
comparison with the source's `tokens_pool`: the hidden vectors at
positions whose mask value is 1. -/
noncomputable def selectMasked (mb : List ℝ) (fb : MatR) : MatR :=
  (List.zipWith (fun mv fv => if mv = (1 : ℝ) then [fv] else []) mb fb).foldr
    (fun a acc => a ++ acc) []

/-- `sumVecs` keeps the vector length when all summands have it. -/
theorem sumVecs_length (n : Nat) (vs : List (List ℝ))
    (hvs : ∀ v ∈ vs, v.length = n) : (sumVecs n vs).length = n := by
  unfold sumVecs
  suffices h : ∀ acc : List ℝ, acc.length = n →
      (vs.foldl (fun a v => List.zipWith (fun x y => x + y) a v) acc).length
        = n by
    exact h (List.replicate n 0) (List.length_replicate n 0)
  induction vs with
  | nil => intro acc hacc; simpa using hacc
  | cons v rest ih =>
    intro acc hacc
    have hv : v.length = n := hvs v (List.mem_cons_self v rest)
    have hstep : (List.zipWith (fun x y => x + y) acc v).length = n := by
      rw [List.length_zipWith, hacc, hv]
      omega
    exact ih (fun u hu => hvs u (List.mem_cons_of_mem v hu)) _ hstep

/-- Entrywise value of `sumVecs`: coordinate `d` of the vector sum is
the sum of the coordinates. -/
theorem sumVecs_getD (n : Nat) (vs : List (List ℝ))
    (hvs : ∀ v ∈ vs, v.length = n) (d : Nat) (hd : d < n) :
    (sumVecs n vs).getD d 0 = (vs.map (fun v => v.getD d 0)).sum := by
  unfold sumVecs
  suffices h : ∀ acc : List ℝ, acc.length = n →
      (vs.foldl (fun a v => List.zipWith (fun x y => x + y) a v) acc).getD d 0
        = acc.getD d 0 + (vs.map (fun v => v.getD d 0)).sum by
    have := h (List.replicate n 0) (List.length_replicate n 0)
    rw [this, getD_replicate_in _ _ _ _ hd]
    ring
  induction vs with
  | nil =>
    intro acc hacc
    simp
  | cons v rest ih =>
    intro acc hacc
    have hv : v.length = n := hvs v (List.mem_cons_self v rest)
    have hstep : (List.zipWith (fun x y => x + y) acc v).length = n := by
      rw [List.length_zipWith, hacc, hv]
      omega
    have hdd : (List.zipWith (fun x y => x + y) acc v).getD d 0 =
        acc.getD d 0 + v.getD d 0 :=
      getD_zipWith _ acc v d 0 0 0 (by omega) (by omega)
    rw [List.foldl_cons, ih (fun u hu => hvs u (List.mem_cons_of_mem v hu)) _
      hstep, hdd]
    simp
    ring

/-- The masked weighted sum over a 0/1 mask equals the plain sum over
the selected positions. -/
theorem masked_sum_eq_selected (mb : List ℝ) (fb : MatR) (d : Nat)
    (h01 : ∀ mv ∈ mb, mv = 0 ∨ mv = 1) :
    (List.zipWith (fun mv fv => mv * fv.getD d (0 : ℝ)) mb fb).sum =
      ((selectMasked mb fb).map (fun v => v.getD d 0)).sum := by
  induction mb generalizing fb with
  | nil => simp [selectMasked]
  | cons mv rest ih =>
    cases fb with
    | nil => simp [selectMasked]
    | cons fv fbrest =>
      have hmv := h01 mv (List.mem_cons_self mv rest)
      have hrest := ih fbrest (fun u hu => h01 u (List.mem_cons_of_mem mv hu))
      rcases hmv with h0 | h1
      · subst h0
        simp [selectMasked, List.zipWith] at hrest ⊢
        rw [hrest]
      · subst h1
        simp [selectMasked, List.zipWith] at hrest ⊢
        rw [hrest]

/-- Over a 0/1 mask the mask total equals the number of selected
positions. -/
theorem mask_sum_eq_selected_card (mb : List ℝ) (fb : MatR)
    (h01 : ∀ mv ∈ mb, mv = 0 ∨ mv = 1) (hlen : fb.length = mb.length) :
    mb.sum = ((selectMasked mb fb).length : ℝ) := by
  induction mb generalizing fb with
  | nil => simp [selectMasked]
  | cons mv rest ih =>
    cases fb with
    | nil => simp at hlen
    | cons fv fbrest =>
      have hmv := h01 mv (List.mem_cons_self mv rest)
      have hrest := ih fbrest (fun u hu => h01 u (List.mem_cons_of_mem mv hu))
        (by simpa using hlen)
      rcases hmv with h0 | h1
      · subst h0
        simp [selectMasked, List.zipWith] at hrest ⊢
        rw [hrest]
      · subst h1
        simp [selectMasked, List.zipWith] at hrest ⊢
        rw [hrest]
        ring_nf

/-- C4 (amended): for an example whose 0/1 mask selects at least one
position, the pooled feature is the mean of the chosen layer's hidden
vectors over the selected positions — the masked sum divided by the
selected count; there is no guard for a mask selecting zero positions,
where the same expression divides by a zero count (see the
counterexample). -/
theorem C4_tokens_pool_mean (hidden_size : Nat) (F : T3R) (M : MatR)
    (b d : Nat) (hbF : b < F.length) (hbM : b < M.length)
    (h01 : ∀ mv ∈ M.getD b [], mv = 0 ∨ mv = 1)
    (hlen : (F.getD b []).length = (M.getD b []).length)
    (hvec : ∀ v ∈ F.getD b [], v.length = hidden_size)
    (hd : d < hidden_size) :
    ent2 (tokens_pool hidden_size F M) b d 0 =
      ((selectMasked (M.getD b []) (F.getD b [])).map
          (fun v => v.getD d 0)).sum /
        ((selectMasked (M.getD b []) (F.getD b [])).length : ℝ) := by
  unfold ent2 tokens_pool
  rw [getD_zipWith _ F M b [] [] [] hbF hbM]
  set fb := F.getD b [] with hfb
  set mb := M.getD b [] with hmb
  have hfilt : ∀ u ∈ List.zipWith (fun mv fv => fv.map (fun x => mv * x)) mb fb,
      u.length = hidden_size := by
    intro u hu
    rw [List.mem_iff_getElem] at hu
    obtain ⟨k, hk, hku⟩ := hu
    rw [List.getElem_zipWith] at hku
    rw [← hku, List.length_map]
    apply hvec
    rw [List.length_zipWith] at hk
    have hkf : k < fb.length := by omega
    rw [← List.getD_eq_getElem fb [] hkf]
    exact getD_mem_of_lt fb k [] hkf
  have hsl : (sumVecs hidden_size
      (List.zipWith (fun mv fv => fv.map (fun x => mv * x)) mb fb)).length =
      hidden_size := sumVecs_length _ _ hfilt
  rw [getD_map_in _ _ d 0 0 (by omega)]
  rw [sumVecs_getD _ _ hfilt d hd]
  have hmap : (List.zipWith (fun mv fv => fv.map (fun x => mv * x)) mb fb).map
      (fun v => v.getD d 0) =
      List.zipWith (fun mv fv => mv * fv.getD d (0 : ℝ)) mb fb := by
    apply List.ext_getElem
    · simp [List.length_zipWith]
    · intro k hk1 hk2
      rw [List.getElem_map, List.getElem_zipWith, List.getElem_zipWith]
      have hkf : k < fb.length := by
        rw [List.length_map, List.length_zipWith] at hk1
        omega
      have hdk : d < (fb[k]).length := by
        rw [hvec fb[k] (List.getElem_mem hkf)]
        exact hd
      rw [List.getD_eq_getElem _ _ (by rw [List.length_map]; exact hdk),
        List.getElem_map, List.getD_eq_getElem _ _ hdk]
  rw [hmap, masked_sum_eq_selected mb fb d h01,
    mask_sum_eq_selected_card mb fb h01 hlen]

/-- C4 witness: hidden size 1, one example with positions `[2]` and
`[4]` and mask `[1, 0]`: the pooled coordinate is the mean over the one
selected position. -/
theorem C4_tokens_pool_mean_witness :
    ent2 (tokens_pool 1 [[[2], [4]]] [[1, 0]]) 0 0 0 =
      ((selectMasked ([1, 0] : List ℝ) [[2], [4]]).map
          (fun v => v.getD 0 0)).sum /
        ((selectMasked ([1, 0] : List ℝ) [[2], [4]]).length : ℝ) := by
  have h := C4_tokens_pool_mean 1 [[[2], [4]]] [[1, 0]] 0 0
    (by norm_num) (by norm_num) (by norm_num) (by norm_num) (by norm_num)
    (by norm_num)
  simpa using h

/-- C4 counterexample: a mask selecting zero positions reaches the very
same division — the per-example divisor `event_tokens.sum(1)` is `0`,
no guard, raise, or sentinel intervenes, and the pooled value is the
expression `masked-sum / 0` (a NaN in floating point; the idealized
field semantics used here totalizes `x / 0`). -/
theorem C4_zero_mask_counterexample :
    (([0, 0] : List ℝ).sum = 0)
    ∧ (selectMasked ([0, 0] : List ℝ) [[1], [2]]).length = 0
    ∧ tokens_pool 1 [[[1], [2]]] [[(0 : ℝ), 0]] =
        [[((0 : ℝ) * 1 + 0 * 2) / ([0, 0] : List ℝ).sum]] := by
  refine ⟨by norm_num, by norm_num [selectMasked], ?_⟩
  simp [tokens_pool, sumVecs]

/-- `getD` on `List.range`, in range. -/
theorem getD_range_in (n k d : Nat) (hk : k < n) :
    (List.range n).getD k d = k := by
  rw [List.getD_eq_getElem _ _ (by rw [List.length_range]; exact hk)]
  simp

/-- `headD` is `getD 0`. -/
theorem headD_eq_getD {α : Type} (l : List α) (d : α) :
    l.headD d = l.getD 0 d := by
  cases l <;> simp

/-- Row `h` of `transpose_for_scores` holds head `h`'s slice of every
position. -/
theorem transpose_for_scores_getD {α : Type} (nh hs : Nat)
    (x : List (List α)) (h : Nat) (hh : h < nh) :
    (transpose_for_scores nh hs x).getD h [] = x.map (headSlice hs h) := by
  unfold transpose_for_scores
  rw [getD_map_in _ _ h 0 [] (by rw [List.length_range]; exact hh)]
  rw [getD_range_in nh h 0 hh]

/-- Entry `(i, j, h)` of the per-example relation feature: the scaled
dot product of head `h`'s query slice at token `i` with head `h`'s key
slice at token `j`. -/
theorem relation_extract_batch_entry (nh hs : Nat) (Wq : MatR)
    (bq : List ℝ) (Wk : MatR) (bk : List ℝ) (hb : MatR) (S i j h : Nat)
    (hbS : hb.length = S) (hi : i < S) (hj : j < S) (hh : h < nh) :
    (((relation_extract_batch nh hs Wq bq Wk bk hb).getD i []).getD j
        []).getD h 0 =
      dotR (headSlice hs h (linearMap Wq bq (hb.getD i [])))
          (headSlice hs h (linearMap Wk bk (hb.getD j []))) /
        Real.sqrt hs := by
  unfold relation_extract_batch
  simp only []
  set xq := hb.map (linearMap Wq bq) with hxq
  set xk := hb.map (linearMap Wk bk) with hxk
  have hxqS : xq.length = S := by rw [hxq, List.length_map, hbS]
  have hxkS : xk.length = S := by rw [hxk, List.length_map, hbS]
  set ql := transpose_for_scores nh hs xq with hql
  set kl := transpose_for_scores nh hs xk with hkl
  have hqlen : ql.length = nh := by
    rw [hql]
    simp [transpose_for_scores]
  have hklen : kl.length = nh := by
    rw [hkl]
    simp [transpose_for_scores]
  set attn := attnScores ql kl with hattn
  have hattnlen : attn.length = nh := by
    rw [hattn]
    unfold attnScores
    rw [List.length_zipWith, hqlen, hklen]
    omega
  have hattn_getD : ∀ h₀, h₀ < nh →
      attn.getD h₀ [] =
        (xq.map (headSlice hs h₀)).map
          (fun qi => (xk.map (headSlice hs h₀)).map (fun kj => dotR qi kj)) := by
    intro h₀ hh₀
    rw [hattn]
    unfold attnScores
    rw [getD_zipWith _ ql kl h₀ [] [] [] (by omega) (by omega)]
    rw [hql, hkl, transpose_for_scores_getD nh hs xq h₀ hh₀,
      transpose_for_scores_getD nh hs xk h₀ hh₀]
  have hattn_row_len : ∀ h₀, h₀ < nh → (attn.getD h₀ []).length = S := by
    intro h₀ hh₀
    rw [hattn_getD h₀ hh₀, List.length_map, List.length_map, hxqS]
  have hattn_entry : ∀ h₀, h₀ < nh → ∀ i₀, i₀ < S →
      (attn.getD h₀ []).getD i₀ [] =
        (xk.map (headSlice hs h₀)).map
          (fun kj => dotR (headSlice hs h₀ (xq.getD i₀ [])) kj) := by
    intro h₀ hh₀ i₀ hi₀
    rw [hattn_getD h₀ hh₀]
    rw [getD_map_in _ _ i₀ [] []
      (by rw [List.length_map, hxqS]; exact hi₀)]
    rw [getD_map_in (headSlice hs h₀) xq i₀ [] [] (by rw [hxqS]; exact hi₀)]
  set scaled := attn.map (fun xh =>
    xh.map (fun xi => xi.map (fun s => s / Real.sqrt hs))) with hscaled
  have hscaledlen : scaled.length = nh := by
    rw [hscaled, List.length_map, hattnlen]
  have hscaled_getD : ∀ h₀, h₀ < nh →
      scaled.getD h₀ [] =
        (attn.getD h₀ []).map (fun xi => xi.map (fun s => s / Real.sqrt hs)) := by
    intro h₀ hh₀
    rw [hscaled]
    exact getD_map_in _ attn h₀ [] [] (by omega)
  have hnh : 0 < nh := by omega
  have hSpos : 0 < S := by omega
  have hsi : (scaled.headD []).length = S := by
    rw [headD_eq_getD, hscaled_getD 0 hnh, List.length_map,
      hattn_row_len 0 hnh]
  have hsj : ((scaled.headD []).headD []).length = S := by
    rw [headD_eq_getD, headD_eq_getD, hscaled_getD 0 hnh]
    rw [getD_map_in _ _ 0 [] [] (by rw [hattn_row_len 0 hnh]; omega)]
    rw [hattn_entry 0 hnh 0 hSpos]
    rw [List.length_map, List.length_map, List.length_map, hxkS]
  unfold permuteHeadsLast
  simp only [hsi, hsj]
  rw [getD_map_in _ _ i 0 [] (by rw [List.length_range]; exact hi)]
  rw [getD_range_in S i 0 hi]
  rw [getD_map_in _ _ j 0 [] (by rw [List.length_range]; exact hj)]
  rw [getD_range_in S j 0 hj]
  rw [getD_map_in _ scaled h [] 0 (by omega)]
  rw [hscaled_getD h hh]
  rw [getD_map_in _ _ i [] [] (by rw [hattn_row_len h hh]; exact hi)]
  rw [hattn_entry h hh i hi]
  rw [getD_map_in _ _ j 0 0
    (by rw [List.length_map, List.length_map, hxkS]; exact hj)]
  rw [getD_map_in _ _ j [] 0 (by rw [List.length_map, hxkS]; exact hj)]
  rw [getD_map_in (headSlice hs h) xk j [] [] (by rw [hxkS]; exact hj)]
  rw [hxq, hxk]
  rw [getD_map_in _ hb i [] [] (by rw [hbS]; exact hi),
    getD_map_in _ hb j [] [] (by rw [hbS]; exact hj)]

/-- C3 (amended): in relation mode `extract` computes the scaled
pairwise dot-product scores — for every pair `(i, j)` and head `h`,
`(query_i · key_j) / sqrt(head_dim)`, arranged as
`(batch, seq, seq, heads)` — but those scores are NOT returned
untransformed: the post-processing at the end of `forward` runs in
every mode, so in relation mode the learned linear map is the identity
while dropout (identity at inference) and the hyperbolic tangent are
still applied, and the returned feature is `tanh` of each scaled
score. -/
theorem C3_relation_extract_tanh (m : RPL) (features : List T3R)
    (event_tokens : MatR) (S b i j h : Nat)
    (hrel : m.relations = true) (htok : m.tokens = false)
    (htag : m.tagger = false)
    (hS : ∀ hb ∈ features.getD m.layer_to_use [], hb.length = S)
    (hb : b < (features.getD m.layer_to_use []).length)
    (hi : i < S) (hj : j < S) (hh : h < m.num_attention_heads) :
    rpl_forward m features event_tokens =
      mapEntries Real.tanh (.r4 (relation_extract m.num_attention_heads
        m.attention_head_size m.Wq m.bq m.Wk m.bk
        (features.getD m.layer_to_use [])))
    ∧ (ent4 (relation_extract m.num_attention_heads m.attention_head_size
          m.Wq m.bq m.Wk m.bk (features.getD m.layer_to_use [])) b i
        j).getD h 0 =
      dotR (headSlice m.attention_head_size h
            (linearMap m.Wq m.bq
              ((features.getD m.layer_to_use []).getD b [] |>.getD i [])))
          (headSlice m.attention_head_size h
            (linearMap m.Wk m.bk
              ((features.getD m.layer_to_use []).getD b [] |>.getD j []))) /
        Real.sqrt m.attention_head_size := by
  constructor
  · simp [rpl_forward, htok, htag, hrel]
  · unfold ent4 relation_extract
    rw [getD_map_in _ _ b [] [] hb]
    exact relation_extract_batch_entry m.num_attention_heads
      m.attention_head_size m.Wq m.bq m.Wk m.bk
      ((features.getD m.layer_to_use []).getD b []) S i j h
      (hS _ (getD_mem_of_lt _ b [] hb)) hi hj hh

/-- C3 witness: the amended fact at a one-layer, one-example,
one-position configuration with unit weights. -/
theorem C3_relation_extract_tanh_witness :
    rpl_forward (RPL.mk 0 false false true 1 1 1 [[1]] [0] [[1]] [0] [[1]]
        [0]) [[[[1]]]] [] =
      mapEntries Real.tanh (.r4 (relation_extract
        (RPL.mk 0 false false true 1 1 1 [[1]] [0] [[1]] [0] [[1]]
          [0]).num_attention_heads
        (RPL.mk 0 false false true 1 1 1 [[1]] [0] [[1]] [0] [[1]]
          [0]).attention_head_size [[1]] [0] [[1]] [0]
        ([[[[1]]]].getD 0 [])))
    ∧ (ent4 (relation_extract
          (RPL.mk 0 false false true 1 1 1 [[1]] [0] [[1]] [0] [[1]]
            [0]).num_attention_heads
          (RPL.mk 0 false false true 1 1 1 [[1]] [0] [[1]] [0] [[1]]
            [0]).attention_head_size [[1]] [0] [[1]] [0]
          ([[[[1]]]].getD 0 [])) 0 0 0).getD 0 0 =
      dotR (headSlice (RPL.mk 0 false false true 1 1 1 [[1]] [0] [[1]] [0]
            [[1]] [0]).attention_head_size 0 (linearMap [[1]] [0]
            (([[[[1]]]].getD 0 []).getD 0 [] |>.getD 0 [])))
          (headSlice (RPL.mk 0 false false true 1 1 1 [[1]] [0] [[1]] [0]
            [[1]] [0]).attention_head_size 0 (linearMap [[1]] [0]
            (([[[[1]]]].getD 0 []).getD 0 [] |>.getD 0 []))) /
        Real.sqrt (RPL.mk 0 false false true 1 1 1 [[1]] [0] [[1]] [0]
          [[1]] [0]).attention_head_size :=
  C3_relation_extract_tanh
    (RPL.mk 0 false false true 1 1 1 [[1]] [0] [[1]] [0] [[1]] [0])
    [[[[1]]]] [] 1 0 0 0 0 rfl rfl rfl
    (by intro x hx; rw [List.mem_singleton.mp hx]; rfl)
    Nat.one_pos Nat.one_pos Nat.one_pos Nat.one_pos

/-- C3 counterexample: with unit weights, one head of size one, and a
single hidden vector `[1]`, the scaled pairwise score is `1`, but the
layer returns `tanh 1 ≠ 1`: the hyperbolic tangent (and dropout) are
applied in relation mode too — only the linear map is the identity. -/
theorem C3_relation_tanh_counterexample :
    relation_extract 1 1 [[1]] [0] [[1]] [0] [[[1]]] = [[[[1]]]]
    ∧ rpl_forward (RPL.mk 0 false false true 1 1 1 [[1]] [0] [[1]] [0]
        [[1]] [0]) [[[[1]]]] [] = .r4 [[[[Real.tanh 1]]]]
    ∧ Real.tanh 1 ≠ 1 := by
  have hscore : relation_extract 1 1 [[1]] [0] [[1]] [0] [[[1]]] =
      [[[[1]]]] := by
    unfold relation_extract relation_extract_batch
    simp [transpose_for_scores, attnScores, permuteHeadsLast, headSlice,
      linearMap, dotR, List.range_succ]
  have htanh : Real.tanh 1 < 1 := by
    rw [Real.tanh_eq_sinh_div_cosh]
    exact (div_lt_one (Real.cosh_pos 1)).mpr (Real.sinh_lt_cosh 1)
  refine ⟨hscore, ?_, ne_of_lt htanh⟩
  have hpipe : rpl_forward (RPL.mk 0 false false true 1 1 1 [[1]] [0] [[1]]
      [0] [[1]] [0]) [[[[1]]]] [] =
      mapEntries Real.tanh
        (.r4 (relation_extract 1 1 [[1]] [0] [[1]] [0] [[[1]]])) := by
    simp [rpl_forward]
  rw [hpipe, hscore]
  rfl

end Cnlpt
